import Mathlib

/-
Shallow embedding of the two Python source files of the repository
(emacs_servers.py and emmy.py), together with proofs about the
reconciliation, cleaning and supervision logic.

Conventions of the embedding:
* External observations (the resolved process-id-to-server-name mapping,
  the socket directory's existence and its socket-type entries, the raw
  output lines of the external listing commands) are supplied as inputs,
  since in the source they come from the operating system.
* Side effects other than printing to stdout are recorded as explicit
  event traces (`SysEvent` / `EmmyEvent`); debug printing is not an
  observable effect and is not modelled.
* Python exceptions are modelled with `Except PyError`.
* Python `set` values are modelled as `Finset String`.
-/

namespace Ew

/-- Python exception kinds that the embedded code can raise. -/
inductive PyError
  | typeError
  | notImplementedError
  | calledProcessError
  | indexError
  | valueError
deriving DecidableEq

/-- Observable side effects of emacs_servers.py: invoking the process
lister (`ps` inside `enumerate_apparent_emacs_server_processes`), scanning
the socket directory (`enumerate_apparent_server_sockets`), launching a
named server (`attempt_to_start_server`), and unlinking a socket file
(`os.unlink` in `clean_dangling_server_sockets`). -/
inductive SysEvent
  | enumProcesses
  | enumSockets
  | launch (server : String)
  | unlink (socketName : String)
deriving DecidableEq

/-- Dynamic type of the value returned by `enumerate_apparent_server_sockets`:
on the success path the function returns a Python `set` of names, but its
`except FileNotFoundError` fallback is `return {}`, which in Python is an
empty *dict* literal (despite the function's `-> Set[str]` annotation). -/
inductive SocketScan
  | set (names : Finset String)
  | emptyDict
deriving DecidableEq

/-- Embedding of `enumerate_apparent_server_sockets` (emacs_servers.py,
lines 176-185).  `dirExists` tells whether `emacs_server_sockets_path()`
exists (otherwise `iterdir` raises FileNotFoundError); `entries` is the set
of names of the socket-type entries of the directory (the `path.is_socket()`
filter is applied by the caller of this model, i.e. `entries` already
contains only socket-type entries). -/
def enumerate_apparent_server_sockets (dirExists : Bool) (entries : Finset String) : SocketScan :=
  if dirExists then SocketScan.set entries else SocketScan.emptyDict

/-- Python `set(x)` applied to the scanner's result: `set` of a set is the
set itself, and `set` of the empty dict (iterating its keys) is empty. -/
def socketScanAsSet : SocketScan → Finset String
  | SocketScan.set s => s
  | SocketScan.emptyDict => ∅

/-- Python `x - y` where `x` is the scanner's result and `y` a set: a set
supports set difference, but a dict does not support `-` with a set, so the
empty-dict fallback value makes this raise `TypeError`. -/
def pySetSub : SocketScan → Finset String → Except PyError (Finset String)
  | SocketScan.set s, t => Except.ok (s \ t)
  | SocketScan.emptyDict, _ => Except.error PyError.typeError

/-- Embedding of `list_running_servers` (emacs_servers.py, lines 80-99).
`P` is the mapping returned by `enumerate_apparent_emacs_server_processes`
(modelled separately below), given as an association list of pid/name
pairs with distinct pids, in iteration order.  Returns the event trace
together with the returned value
`set(emacs_server_processes.values()) & set(emacs_server_sockets)`. -/
def list_running_servers (P : List (Nat × String)) (dirExists : Bool) (entries : Finset String) :
    List SysEvent × Finset String :=
  let sockets := enumerate_apparent_server_sockets dirExists entries
  ([SysEvent.enumProcesses, SysEvent.enumSockets],
    (P.map Prod.snd).toFinset ∩ socketScanAsSet sockets)

/-- Embedding of `clean_dangling_server_sockets` (emacs_servers.py, lines
102-113): enumerate processes and sockets, compute
`emacs_server_sockets - set(emacs_server_processes.values())` (which
raises `TypeError` when the scanner fell back to the empty dict), then
unlink each dangling socket.  Returns the event trace and the outcome. -/
def clean_dangling_server_sockets (P : List (Nat × String)) (dirExists : Bool)
    (entries : Finset String) : List SysEvent × Except PyError Unit :=
  match pySetSub (enumerate_apparent_server_sockets dirExists entries)
      ((P.map Prod.snd).toFinset) with
  | Except.error e => ([SysEvent.enumProcesses, SysEvent.enumSockets], Except.error e)
  | Except.ok dangling =>
      ([SysEvent.enumProcesses, SysEvent.enumSockets]
        ++ (dangling.sort (· ≤ ·)).map SysEvent.unlink, Except.ok ())

/-- Embedding of `ensure_servers_running` (emacs_servers.py, lines 116-126):
it first calls `list_running_servers()` (hence its enumeration events),
computes `set(requested_servers) - running_servers`, returns early when
nothing is missing, and otherwise calls `attempt_to_start_server` for each
missing server.  The launcher invocations are recorded as launch events
(the source iterates the missing set in unspecified order;
`Finset.sort` fixes one order, and the claims below only use
membership). -/
def ensure_servers_running (requested : List String) (P : List (Nat × String))
    (dirExists : Bool) (entries : Finset String) : List SysEvent :=
  let r := list_running_servers P dirExists entries
  let missing := requested.toFinset \ r.2
  if missing = ∅ then r.1
  else r.1 ++ (missing.sort (· ≤ ·)).map SysEvent.launch

/-- Embedding of `ensure_servers_stopped` (emacs_servers.py, lines 129-131):
it immediately raises `NotImplementedError` (after a debug print), having
performed no observable side effect. -/
def ensure_servers_stopped (_servers : List String) : List SysEvent × Except PyError Unit :=
  ([], Except.error PyError.notImplementedError)

/-- Parsed command line of emacs_servers.py relevant to dispatch in `main`
(emacs_servers.py, lines 60-74): the subcommand, and for `ensure` the
`--stopped` flag and the server names. -/
inductive Command
  | list
  | clean
  | ensure (stopped : Bool) (servers : List String)

/-- Embedding of the command dispatch in `main` (emacs_servers.py, lines
65-73), returning the event trace and the outcome. -/
def main (cmd : Command) (P : List (Nat × String)) (dirExists : Bool)
    (entries : Finset String) : List SysEvent × Except PyError Unit :=
  match cmd with
  | Command.list => ((list_running_servers P dirExists entries).1, Except.ok ())
  | Command.clean => clean_dangling_server_sockets P dirExists entries
  | Command.ensure false servers =>
      (ensure_servers_running servers P dirExists entries, Except.ok ())
  | Command.ensure true servers => ensure_servers_stopped servers

/-! Deep layer: the process inspector and name resolver of
`enumerate_apparent_emacs_server_processes` (emacs_servers.py, lines
137-173), working on the raw output lines of the external commands.
Lines are modelled as `List Char`. -/

/-- Left-to-right, fail-fast effectful map over a list, modelling Python's
sequential evaluation of a comprehension whose element expression may
raise: the first raise propagates and later elements are not evaluated. -/
def exceptMapM (f : α → Except PyError β) : List α → Except PyError (List β)
  | [] => Except.ok []
  | a :: l =>
      match f a with
      | Except.error e => Except.error e
      | Except.ok b => (exceptMapM f l).map (fun bs => b :: bs)

/-- ASCII lower-casing of one character, modelling `str.lower()` on the
command lines at hand (which are ASCII). -/
def lowerAscii (c : Char) : Char :=
  if 'A' ≤ c ∧ c ≤ 'Z' then Char.ofNat (c.toNat + 32) else c

/-- Python's `pat in s` substring test on character lists. -/
def containsSeq (pat : List Char) : List Char → Bool
  | [] => decide (pat = [])
  | c :: rest => pat.isPrefixOf (c :: rest) || containsSeq pat rest

/-- The filter `"emacs" in line.lower()` applied by
`enumerate_apparent_emacs_server_processes` to each `ps` output line
(emacs_servers.py, line 158). -/
def isEmacsLine (line : List Char) : Bool :=
  containsSeq ("emacs".toList) (line.map lowerAscii)

/-- Model of `int(line.split()[0])` (emacs_servers.py, line 155):
`split()[0]` takes the first whitespace-separated token (IndexError when
the line is empty or all whitespace), and `int` parses it (ValueError on a
non-numeric token; the pid tokens of `ps` output are plain decimal). -/
def pyFirstTokenInt (line : List Char) : Except PyError Nat :=
  let token := (line.dropWhile Char.isWhitespace).takeWhile (fun c => ! c.isWhitespace)
  if token = [] then Except.error PyError.indexError
  else if token.all Char.isDigit then
    Except.ok (token.foldl (fun acc c => 10 * acc + (c.toNat - 48)) 0)
  else Except.error PyError.valueError

/-- The pid-enumeration stage of `enumerate_apparent_emacs_server_processes`
(emacs_servers.py, lines 153-161): run the process lister (whose failure,
a `CalledProcessError` from `subprocess.check_output` in `run_command`,
propagates uncaught), keep the lines containing "emacs" case-insensitively,
parse each line's leading pid, and sort ascending (`sorted`). -/
def enumerate_emacs_pids (psResult : Except PyError (List (List Char))) :
    Except PyError (List Nat) :=
  match psResult with
  | Except.error e => Except.error e
  | Except.ok lines =>
      match exceptMapM pyFirstTokenInt (lines.filter isEmacsLine) with
      | Except.error e => Except.error e
      | Except.ok pids => Except.ok (List.insertionSort (· ≤ ·) pids)

/-- Model of one attempt of `re.search(dir + r"/(\S+)$", output, MULTILINE)`
within a single line: scan for the leftmost occurrence of `dir ++ "/"`
followed only by non-whitespace characters up to the end of the line, and
return those characters (the regex group).  The source interpolates the
directory path into the pattern unescaped; this model matches it
literally, which coincides whenever the path contains no pattern
metacharacters (the claims only exercise such paths). -/
def extractServerName (dir : List Char) : List Char → Option (List Char)
  | [] => none
  | c :: rest =>
      let tail := (c :: rest).drop (dir.length + 1)
      if (dir ++ ['/']).isPrefixOf (c :: rest) && !tail.isEmpty
          && tail.all (fun ch => ! ch.isWhitespace) then
        some tail
      else extractServerName dir rest

/-- Embedding of the inner `check_if_process_is_emacs_server`
(emacs_servers.py, lines 138-150), applied to the output lines of
`lsof +p <pid>`: the MULTILINE search over the joined output returns the
match of the earliest matching line.  Returns the extracted server name,
or `none` when no line matches. -/
def check_if_process_is_emacs_server (dir : List Char) (lsofOutput : List (List Char)) :
    Option (List Char) :=
  lsofOutput.findSome? (extractServerName dir)

/-- One element of the comprehension
`[(pid, check_if_process_is_emacs_server(pid)) for pid in emacs_pids]`
(emacs_servers.py, lines 169-171): run the per-process open-file lister
for `pid` (an exception from `run_command` inside
`check_if_process_is_emacs_server` propagates) and pair the pid with the
extracted server name, if any. -/
def lsofCheck (dir : List Char) (lsof : Nat → Except PyError (List (List Char)))
    (pid : Nat) : Except PyError (Nat × Option (List Char)) :=
  match lsof pid with
  | Except.error e => Except.error e
  | Except.ok out => Except.ok (pid, check_if_process_is_emacs_server dir out)

/-- Embedding of `enumerate_apparent_emacs_server_processes`
(emacs_servers.py, lines 137-173).  `psResult` is the outcome of running
the process lister; `lsof pid` is the outcome of running the per-process
open-file lister for `pid` (its `CalledProcessError`, raised inside
`run_command` by `subprocess.check_output` and caught nowhere, propagates
out of the whole enumeration).  On success, returns the pid/name pairs of
the processes whose open files matched, in ascending pid order. -/
def enumerate_apparent_emacs_server_processes (dir : List Char)
    (psResult : Except PyError (List (List Char)))
    (lsof : Nat → Except PyError (List (List Char))) :
    Except PyError (List (Nat × List Char)) :=
  match enumerate_emacs_pids psResult with
  | Except.error e => Except.error e
  | Except.ok pids =>
      match exceptMapM (lsofCheck dir lsof) pids with
      | Except.error e => Except.error e
      | Except.ok pairs =>
          Except.ok (pairs.filterMap (fun pr => pr.2.map (fun name => (pr.1, name))))

/-! Embedding of emmy.py: the supervise-singleton entry point. -/

/-- Observable side effects of emmy.py: launching the default daemon
(`launch_emacs_daemon`) and sleeping (`time.sleep(10)`). -/
inductive EmmyEvent
  | launch
  | sleep (seconds : Nat)
deriving DecidableEq

/-- Embedding of `emacs_daemon_is_running` (emmy.py, lines 74-81): drop
the header line of the `ps ax` output (the `[1:]` slice) and test whether
any remaining line contains both `'Emacs.app'` and `'daemon'`. -/
def emacs_daemon_is_running (psOutput : List (List Char)) : Bool :=
  (psOutput.drop 1).any (fun line =>
    containsSeq ("Emacs.app".toList) line && containsSeq ("daemon".toList) line)

/-- Embedding of `wait_for_emacs_daemon_to_end` (emmy.py, lines 88-90):
`while emacs_daemon_is_running(): time.sleep(10)`.  `ps k` is the `ps ax`
output observed by the k-th liveness check of the whole run (the loop here
starts at check index `k`); `fuel` bounds the number of loop iterations
modelled, with `none` meaning the loop has not terminated within `fuel`
checks.  Returns the trace of sleep events. -/
def wait_for_emacs_daemon_to_end (ps : Nat → List (List Char)) :
    Nat → Nat → Option (List EmmyEvent)
  | _, 0 => none
  | k, fuel + 1 =>
      if emacs_daemon_is_running (ps k) then
        (wait_for_emacs_daemon_to_end ps (k + 1) fuel).map
          (fun evs => EmmyEvent.sleep 10 :: evs)
      else some []

/-- Embedding of `main` of emmy.py (lines 66-71): if the daemon is not
already detected (check 0), launch it and wait for it to end (checks 1,
2, ...); otherwise return immediately.  Returns the event trace, or `none`
when the wait loop exceeds `fuel` iterations. -/
def emmy_main (ps : Nat → List (List Char)) (fuel : Nat) : Option (List EmmyEvent) :=
  if emacs_daemon_is_running (ps 0) then some []
  else (wait_for_emacs_daemon_to_end ps 1 fuel).map (fun evs => EmmyEvent.launch :: evs)

/-! Theorems. -/

/-- Projections of `list_running_servers`: its event trace and its return
value. -/
theorem list_running_servers_fst (P : List (Nat × String)) (dirExists : Bool)
    (entries : Finset String) :
    (list_running_servers P dirExists entries).1 =
      [SysEvent.enumProcesses, SysEvent.enumSockets] := rfl

theorem list_running_servers_snd (P : List (Nat × String)) (dirExists : Bool)
    (entries : Finset String) :
    (list_running_servers P dirExists entries).2 =
      (P.map Prod.snd).toFinset ∩
        socketScanAsSet (enumerate_apparent_server_sockets dirExists entries) := rfl

/-- Launch events of `ensure_servers_running` are exactly the requested
names missing from the running set. -/
theorem launch_mem_ensure_iff (requested : List String) (P : List (Nat × String))
    (dirExists : Bool) (entries : Finset String) (n : String) :
    SysEvent.launch n ∈ ensure_servers_running requested P dirExists entries ↔
      n ∈ requested.toFinset \ (list_running_servers P dirExists entries).2 := by
  unfold ensure_servers_running
  by_cases hm : requested.toFinset \ (list_running_servers P dirExists entries).2 = ∅
  · simp [hm, list_running_servers_fst]
  · simp [hm, list_running_servers_fst, Finset.mem_sort]

/-- Launch events of `ensure_servers_running` occur exactly once for each
missing requested name and never otherwise. -/
theorem ensure_count_launch (requested : List String) (P : List (Nat × String))
    (dirExists : Bool) (entries : Finset String) (n : String) :
    (ensure_servers_running requested P dirExists entries).count (SysEvent.launch n) =
      if n ∈ requested.toFinset \ (list_running_servers P dirExists entries).2
      then 1 else 0 := by
  have hinj : Function.Injective SysEvent.launch := by
    intro a b hab
    cases hab
    rfl
  unfold ensure_servers_running
  by_cases hm : requested.toFinset \ (list_running_servers P dirExists entries).2 = ∅
  · simp [hm, list_running_servers_fst]
  · simp only [hm, if_neg, ite_false, list_running_servers_fst, List.count_append]
    have h0 : List.count (SysEvent.launch n)
        [SysEvent.enumProcesses, SysEvent.enumSockets] = 0 :=
      List.count_eq_zero_of_not_mem (by simp)
    rw [h0, Nat.zero_add]
    have hnd : (((requested.toFinset \
        (list_running_servers P dirExists entries).2).sort (· ≤ ·)).map
          SysEvent.launch).Nodup :=
      (Finset.sort_nodup _ _).map hinj
    by_cases hn : n ∈ requested.toFinset \ (list_running_servers P dirExists entries).2
    · rw [if_pos hn]
      refine List.count_eq_one_of_mem hnd ?_
      refine List.mem_map.mpr ⟨n, ?_, rfl⟩
      rw [Finset.mem_sort]
      exact hn
    · rw [if_neg hn]
      refine List.count_eq_zero_of_not_mem ?_
      intro hmem
      rcases List.mem_map.mp hmem with ⟨a, ha, hae⟩
      cases hinj hae
      rw [Finset.mem_sort] at ha
      exact hn ha

/-- C1: for every process-to-name mapping P and socket-name set S observed
during one invocation, a name is in the set returned by `list` iff it is
both a value of P and a member of S (the intersection, a conjunction). -/
theorem list_returns_intersection (P : List (Nat × String)) (S : Finset String) (n : String) :
    n ∈ (list_running_servers P true S).2 ↔ n ∈ P.map Prod.snd ∧ n ∈ S := by
  simp [list_running_servers, enumerate_apparent_server_sockets, socketScanAsSet]

/-- C2: `ensure running` invokes the launcher exactly once for each
requested name not in the Apparent Running Set at call time and for no
other name, and performs zero launches when every requested name is
already in that set. -/
theorem ensure_running_launches_exactly_missing (requested : List String)
    (P : List (Nat × String)) (dirExists : Bool) (entries : Finset String) :
    (∀ n, (ensure_servers_running requested P dirExists entries).count
        (SysEvent.launch n) =
        if n ∈ requested ∧ n ∉ (list_running_servers P dirExists entries).2
        then 1 else 0) ∧
    ((∀ n ∈ requested, n ∈ (list_running_servers P dirExists entries).2) →
        ∀ n, SysEvent.launch n ∉ ensure_servers_running requested P dirExists entries) := by
  constructor
  · intro n
    rw [ensure_count_launch]
    simp only [Finset.mem_sdiff, List.mem_toFinset]
  · intro hall n hmem
    have h := launch_mem_ensure_iff requested P dirExists entries n
    rw [h, Finset.mem_sdiff, List.mem_toFinset] at hmem
    exact hmem.2 (hall n hmem.1)

/-- Witness for C2: with "git" requested and already apparently running
(pid 5 resolves to "git" and the socket "git" exists), no launch happens. -/
theorem ensure_running_idempotent_witness :
    SysEvent.launch "git" ∉ ensure_servers_running ["git"] [(5, "git")] true {"git"} :=
  (ensure_running_launches_exactly_missing ["git"] [(5, "git")] true {"git"}).2
    (by decide) "git"

/-- C3 counterexample: `ensure running` with the empty requested set still
performs a process enumeration (the call to `list_running_servers` happens
before the emptiness check), contradicting the claimed short-circuit. -/
theorem ensure_running_empty_counterexample :
    SysEvent.enumProcesses ∈ ensure_servers_running [] [] true ∅ := by decide

/-- C3 as amended: `ensure running` on the empty requested set performs
zero launches but still performs one process enumeration and one
socket-directory enumeration, for every observed state. -/
theorem ensure_running_empty_still_enumerates (P : List (Nat × String))
    (dirExists : Bool) (entries : Finset String) :
    ensure_servers_running [] P dirExists entries =
      [SysEvent.enumProcesses, SysEvent.enumSockets] := by
  unfold ensure_servers_running
  simp [list_running_servers_fst]

/-- C5: evaluation at the failing input.  With the socket directory absent,
`clean` raises `TypeError` (the scanner's fallback `return` yields an empty
dict which does not support set difference) instead of completing as a
no-op, while `list` does return the empty set. -/
theorem clean_missing_dir_raises_type_error :
    clean_dangling_server_sockets [] false ∅ =
      ([SysEvent.enumProcesses, SysEvent.enumSockets], Except.error PyError.typeError) ∧
    (list_running_servers [] false ∅).2 = ∅ := ⟨rfl, rfl⟩

/-- C6: `clean` completes and deletes exactly the entries whose names are
socket names without a corresponding resolved process name, and no other
entry. -/
theorem clean_deletes_exactly_dangling (P : List (Nat × String)) (S : Finset String)
    (n : String) :
    (clean_dangling_server_sockets P true S).2 = Except.ok () ∧
    (SysEvent.unlink n ∈ (clean_dangling_server_sockets P true S).1 ↔
      n ∈ S ∧ n ∉ P.map Prod.snd) := by
  constructor
  · rfl
  · simp [clean_dangling_server_sockets, pySetSub, enumerate_apparent_server_sockets,
      Finset.mem_sort]

/-- C7: `ensure --stopped` fails with `NotImplementedError` and performs no
observable side effect (empty event trace): no enumeration, no launch, no
deletion, no signal. -/
theorem ensure_stopped_unimplemented_no_effects (servers : List String)
    (P : List (Nat × String)) (dirExists : Bool) (entries : Finset String) :
    main (Command.ensure true servers) P dirExists entries =
      ([], Except.error PyError.notImplementedError) := rfl

/-- C10: when the socket directory is absent the scanner's fallback value
is the empty dict, so `clean` raises `TypeError` instead of completing as
a no-op, while `list` still completes and returns the empty set. -/
theorem missing_dir_empty_dict_breaks_clean (P : List (Nat × String))
    (entries : Finset String) :
    enumerate_apparent_server_sockets false entries = SocketScan.emptyDict ∧
    (clean_dangling_server_sockets P false entries).2 = Except.error PyError.typeError ∧
    (list_running_servers P false entries).2 = ∅ := by
  refine ⟨rfl, rfl, ?_⟩
  simp [list_running_servers, enumerate_apparent_server_sockets, socketScanAsSet]

/-- Membership in the successful result of `exceptMapM`: when no element
raised, the outputs are exactly the successful images of the inputs. -/
theorem exceptMapM_ok_mem {α β : Type} {f : α → Except PyError β} {l : List α}
    {l' : List β} (h : exceptMapM f l = Except.ok l') (b : β) :
    b ∈ l' ↔ ∃ a ∈ l, f a = Except.ok b := by
  induction l generalizing l' with
  | nil =>
      rw [exceptMapM] at h
      cases h
      simp
  | cons a t ih =>
      rw [exceptMapM] at h
      cases hfa : f a with
      | error e =>
          rw [hfa] at h
          cases h
      | ok b0 =>
          rw [hfa] at h
          cases ht : exceptMapM f t with
          | error e =>
              rw [ht] at h
              cases h
          | ok rest =>
              rw [ht] at h
              cases h
              constructor
              · intro hb
                rcases List.mem_cons.mp hb with hb | hb
                · exact ⟨a, List.mem_cons_self a t, by rw [hfa, hb]⟩
                · rcases (ih ht).mp hb with ⟨a', ha', hfa'⟩
                  exact ⟨a', List.mem_cons_of_mem a ha', hfa'⟩
              · rintro ⟨a', ha', hfa'⟩
                rcases List.mem_cons.mp ha' with rfl | ha'
                · have hb : b0 = b := Except.ok.inj (hfa.symm.trans hfa')
                  rw [← hb]
                  exact List.mem_cons_self b0 rest
                · exact List.mem_cons_of_mem b0 ((ih ht).mpr ⟨a', ha', hfa'⟩)

/-- C4 counterexample: with one candidate line "123 emacs" and the
per-process open-file lister failing (as for a since-exited process), the
aggregate enumeration propagates the failure instead of returning the
mapping with that process id omitted. -/
theorem lsof_failure_counterexample :
    enumerate_apparent_emacs_server_processes ("/tmp/emacs501".toList)
        (Except.ok [("123 emacs".toList)])
        (fun _ => Except.error PyError.calledProcessError) =
      Except.error PyError.calledProcessError ∧
    enumerate_apparent_emacs_server_processes ("/tmp/emacs501".toList)
        (Except.ok [("123 emacs".toList)])
        (fun _ => Except.error PyError.calledProcessError) ≠
      Except.ok [] := by
  refine ⟨rfl, ?_⟩
  intro h
  have h' : (Except.error PyError.calledProcessError :
      Except PyError (List (Nat × List Char))) = Except.ok [] := h
  cases h'

/-- A failing element anywhere in the input makes `exceptMapM` fail. -/
theorem exceptMapM_error_of_mem {α β : Type} {f : α → Except PyError β} {l : List α}
    {a : α} {e : PyError} (ha : a ∈ l) (hfa : f a = Except.error e) :
    ∃ eFirst, exceptMapM f l = Except.error eFirst := by
  induction l with
  | nil => cases ha
  | cons b t ih =>
      rw [exceptMapM]
      cases hfb : f b with
      | error e' => exact ⟨e', rfl⟩
      | ok c =>
          rcases List.mem_cons.mp ha with rfl | hat
          · rw [hfa] at hfb
            cases hfb
          · rcases ih hat with ⟨e', he'⟩
            rw [he']
            exact ⟨e', rfl⟩

/-- When `a` is the only failing element of the input, `exceptMapM` fails
with exactly its error. -/
theorem exceptMapM_error_of_unique {α β : Type} {f : α → Except PyError β} {l : List α}
    {a : α} {e : PyError} (ha : a ∈ l) (hfa : f a = Except.error e)
    (hrest : ∀ b ∈ l, b ≠ a → ∃ c, f b = Except.ok c) :
    exceptMapM f l = Except.error e := by
  induction l with
  | nil => cases ha
  | cons b t ih =>
      rw [exceptMapM]
      by_cases hba : b = a
      · subst hba
        rw [hfa]
      · rcases hrest b (List.mem_cons_self b t) hba with ⟨c, hc⟩
        rw [hc]
        have hat : a ∈ t := by
          rcases List.mem_cons.mp ha with rfl | hat
          · exact absurd rfl hba
          · exact hat
        rw [ih hat (fun b' hb' hb'a => hrest b' (List.mem_cons_of_mem b hb') hb'a)]
        rfl

/-- C4 as amended: when the per-process open-file enumeration fails for
any candidate process id (anywhere in the ascending pid list), the whole
aggregate enumeration fails and no mapping is produced; moreover when
that process is the only failing one (the race case: a single since-exited
process among healthy ones), the propagated error is exactly its
open-file lister's failure. -/
theorem lsof_failure_propagates (dir : List Char)
    (psResult : Except PyError (List (List Char)))
    (lsof : Nat → Except PyError (List (List Char)))
    (pids : List Nat) (p : Nat) (e : PyError)
    (hpids : enumerate_emacs_pids psResult = Except.ok pids)
    (hp : p ∈ pids)
    (hfail : lsof p = Except.error e) :
    (∃ eFirst, enumerate_apparent_emacs_server_processes dir psResult lsof =
        Except.error eFirst) ∧
    ((∀ q ∈ pids, q ≠ p → ∃ out, lsof q = Except.ok out) →
        enumerate_apparent_emacs_server_processes dir psResult lsof =
          Except.error e) := by
  have hfp : lsofCheck dir lsof p = Except.error e := by
    unfold lsofCheck
    rw [hfail]
  constructor
  · rcases exceptMapM_error_of_mem hp hfp with ⟨e', he'⟩
    refine ⟨e', ?_⟩
    unfold enumerate_apparent_emacs_server_processes
    simp only [hpids]
    rw [he']
  · intro hrest
    have hr : ∀ q ∈ pids, q ≠ p → ∃ c, lsofCheck dir lsof q = Except.ok c := by
      intro q hq hqp
      rcases hrest q hq hqp with ⟨out, hout⟩
      refine ⟨(q, check_if_process_is_emacs_server dir out), ?_⟩
      unfold lsofCheck
      rw [hout]
    unfold enumerate_apparent_emacs_server_processes
    simp only [hpids]
    rw [exceptMapM_error_of_unique hp hfp hr]

/-- Witness for C4's amended theorem: a concrete run with two candidate
pids where the open-file lister succeeds for the first (pid 7, no socket
line) and fails for the second (pid 123); the failure propagates. -/
theorem lsof_failure_propagates_witness :
    enumerate_apparent_emacs_server_processes ("/tmp/emacs501".toList)
        (Except.ok [("7 Emacs".toList), ("123 emacs".toList)])
        (fun q => if q = 123 then Except.error PyError.calledProcessError
          else Except.ok []) =
      Except.error PyError.calledProcessError := by
  have h := lsof_failure_propagates ("/tmp/emacs501".toList)
    (Except.ok [("7 Emacs".toList), ("123 emacs".toList)])
    (fun q => if q = 123 then Except.error PyError.calledProcessError
      else Except.ok [])
    [7, 123] 123 PyError.calledProcessError rfl (by decide) rfl
  refine h.2 ?_
  intro q hq hqp
  rcases List.mem_cons.mp hq with rfl | hq'
  · exact ⟨[], rfl⟩
  · rcases List.mem_cons.mp hq' with rfl | hq''
    · exact absurd rfl hqp
    · cases hq''

/-- C8: the Process Inspector propagates a failure of the process-listing
facility uncaught, and on success returns exactly the pids of the listed
lines containing "emacs" case-insensitively, in ascending numeric order. -/
theorem process_inspector_contract (dir : List Char)
    (lsof : Nat → Except PyError (List (List Char))) :
    (∀ e, enumerate_apparent_emacs_server_processes dir (Except.error e) lsof =
        Except.error e) ∧
    (∀ lines pids, enumerate_emacs_pids (Except.ok lines) = Except.ok pids →
      List.Sorted (fun a b => a ≤ b) pids ∧
      ∀ pid, pid ∈ pids ↔
        ∃ line ∈ lines, isEmacsLine line = true ∧
          pyFirstTokenInt line = Except.ok pid) := by
  constructor
  · intro e
    rfl
  · intro lines pids h
    rw [enumerate_emacs_pids] at h
    cases hm : exceptMapM pyFirstTokenInt (lines.filter isEmacsLine) with
    | error e =>
        rw [hm] at h
        cases h
    | ok l =>
        rw [hm] at h
        cases h
        constructor
        · exact List.sorted_insertionSort _ l
        · intro pid
          rw [List.mem_insertionSort, exceptMapM_ok_mem hm pid]
          simp [List.mem_filter, and_assoc]

/-- Concrete ps output used to witness the Process Inspector contract. -/
def psLinesW : List (List Char) :=
  [("  PID COMMAND".toList),
   ("200 /Applications/Emacs.app/Contents/MacOS/Emacs --daemon=git".toList),
   ("50 emacs".toList)]

/-- Witness for C8: on `psLinesW` the pid stage succeeds with [50, 200],
which is sorted ascending. -/
theorem process_inspector_contract_witness :
    List.Sorted (fun a b => a ≤ b) [50, 200] :=
  (((process_inspector_contract [] (fun _ => Except.ok [])).2 psLinesW [50, 200]
    rfl).1)

/-- Termination and trace of the polling loop of emmy.py: if the daemon is
detected at checks k, ..., k+m-1 and no longer at check k+m, the loop
sleeps m times and returns. -/
theorem wait_loop_terminates (ps : Nat → List (List Char)) (m : Nat) :
    ∀ (k fuel : Nat),
      (∀ j, j < m → emacs_daemon_is_running (ps (k + j)) = true) →
      emacs_daemon_is_running (ps (k + m)) = false →
      m < fuel →
      wait_for_emacs_daemon_to_end ps k fuel =
        some (List.replicate m (EmmyEvent.sleep 10)) := by
  induction m with
  | zero =>
      intro k fuel _ hend hfuel
      obtain ⟨f, rfl⟩ : ∃ f, fuel = f + 1 := ⟨fuel - 1, by omega⟩
      rw [wait_for_emacs_daemon_to_end]
      rw [Nat.add_zero] at hend
      simp [hend]
  | succ m ih =>
      intro k fuel hm hend hfuel
      obtain ⟨f, rfl⟩ : ∃ f, fuel = f + 1 := ⟨fuel - 1, by omega⟩
      have h0 : emacs_daemon_is_running (ps k) = true := by
        have h := hm 0 (Nat.succ_pos m)
        rwa [Nat.add_zero] at h
      have hm' : ∀ j, j < m → emacs_daemon_is_running (ps (k + 1 + j)) = true := by
        intro j hj
        have e : k + 1 + j = k + (j + 1) := by omega
        rw [e]
        exact hm (j + 1) (by omega)
      have hend' : emacs_daemon_is_running (ps (k + 1 + m)) = false := by
        have e : k + 1 + m = k + (m + 1) := by omega
        rw [e]
        exact hend
      rw [wait_for_emacs_daemon_to_end, h0]
      rw [ih (k + 1) f hm' hend' (by omega)]
      rfl

/-- C9: the supervise-singleton entry point returns immediately with no
launch when the daemon is already detected at the initial check; otherwise
it launches the daemon and then sleeps 10 time units between liveness
checks, returning once the daemon is no longer detected (after exactly m
sleeps when checks 1..m still see it and check m+1 does not). -/
theorem emmy_supervise_singleton (ps : Nat → List (List Char)) (m fuel : Nat)
    (hm : ∀ j, j < m → emacs_daemon_is_running (ps (j + 1)) = true)
    (hend : emacs_daemon_is_running (ps (m + 1)) = false)
    (hfuel : m < fuel) :
    emmy_main ps fuel =
      if emacs_daemon_is_running (ps 0) then some []
      else some (EmmyEvent.launch :: List.replicate m (EmmyEvent.sleep 10)) := by
  unfold emmy_main
  by_cases h0 : emacs_daemon_is_running (ps 0)
  · simp [h0]
  · simp only [h0, Bool.false_eq_true, if_false]
    have hm1 : ∀ j, j < m → emacs_daemon_is_running (ps (1 + j)) = true := by
      intro j hj
      have e : 1 + j = j + 1 := Nat.add_comm 1 j
      rw [e]
      exact hm j hj
    have hend1 : emacs_daemon_is_running (ps (1 + m)) = false := by
      have e : 1 + m = m + 1 := Nat.add_comm 1 m
      rw [e]
      exact hend
    rw [wait_loop_terminates ps m 1 fuel hm1 hend1 hfuel]
    rfl

/-- Concrete stream of ps outputs used to witness the supervision
behaviour: nothing at check 0, the default daemon at check 1, gone at
check 2. -/
def psW (k : Nat) : List (List Char) :=
  if k = 1 then
    [[], ("1 /Applications/Emacs.app/Contents/MacOS/Emacs --daemon".toList)]
  else [[]]

/-- Witness for C9: on `psW` the wrapper launches once, sleeps once, and
returns. -/
theorem emmy_supervise_singleton_witness :
    emmy_main psW 2 = some [EmmyEvent.launch, EmmyEvent.sleep 10] := by
  have h := emmy_supervise_singleton psW 1 2
    (by
      intro j hj
      have hj0 : j = 0 := by omega
      subst hj0
      rfl)
    rfl (by omega)
  rw [h]
  rfl

end Ew
